import Mathlib

/-!
Verification of the generic credential-extraction engine of this repository.

The engine exists in two JavaScript variants:
  * `src/scripts/generic_extractor.cjs`        (the "Scripts" variant below)
  * `src/src-tauri/scripts/generic_extractor.cjs` (the "Tauri" variant below)

Strings are embedded as `List Char` (`Str`); JavaScript string methods used by
the source (`startsWith`, `includes`, `slice(6,-1)`, `split(':')`, `join(':')`,
`toLowerCase`, `endsWith`) are given explicit executable models below.
-/

/-- Character-list strings: the embedding of JavaScript strings. -/
abbrev Str := List Char

/-- Model of JavaScript `s.startsWith(pre)`. -/
def strStartsWith : Str → Str → Bool
  | _, [] => true
  | [], _ :: _ => false
  | c :: cs, p :: ps => c == p && strStartsWith cs ps

/-- Model of JavaScript `s.includes(sub)` (substring containment). -/
def strIncludes (s sub : Str) : Bool :=
  strStartsWith s sub ||
    (match s with
     | [] => false
     | _ :: cs => strIncludes cs sub)

/-- Model of JavaScript `s.endsWith(suf)`. -/
def strEndsWith (s suf : Str) : Bool :=
  strStartsWith s.reverse suf.reverse

/-- Model of JavaScript `s.toLowerCase()` on the ASCII range (HTTP header
names are ASCII; `Char.toLower` lowers exactly the ASCII uppercase letters). -/
def toLowerStr (s : Str) : Str := s.map Char.toLower

/-- Model of JavaScript `s.split(c)` for a single-character separator:
`"".split(c) = [""]`, and separators at the ends produce empty fields. -/
def splitOnChar (c : Char) : Str → List Str
  | [] => [[]]
  | x :: xs =>
    if x = c then [] :: splitOnChar c xs
    else
      match splitOnChar c xs with
      | y :: ys => (x :: y) :: ys
      | [] => [[x]]

theorem splitOnChar_ne_nil (c : Char) (l : Str) : splitOnChar c l ≠ [] := by
  induction l with
  | nil => simp [splitOnChar]
  | cons x xs ih =>
    simp only [splitOnChar]
    split
    · simp
    · split
      · simp
      · simp

theorem splitOnChar_append_cons (c : Char) (xs ys : Str) (h : c ∉ xs) :
    splitOnChar c (xs ++ c :: ys) = xs :: splitOnChar c ys := by
  induction xs with
  | nil => simp [splitOnChar]
  | cons a as ih =>
    have ha : a ≠ c := fun hac => h (hac ▸ List.mem_cons_self a as)
    have hrest : c ∉ as := fun hm => h (List.mem_cons_of_mem a hm)
    have ihh := ih hrest
    simp only [List.cons_append, splitOnChar, if_neg ha]
    rw [List.append_eq, ihh]

theorem intercalate_splitOnChar (c : Char) (l : Str) :
    List.intercalate [c] (splitOnChar c l) = l := by
  induction l with
  | nil => simp [splitOnChar, List.intercalate]
  | cons x xs ih =>
    simp only [splitOnChar]
    by_cases hx : x = c
    · subst hx
      rw [if_pos rfl]
      rcases hsp : splitOnChar x xs with _ | ⟨y, ys⟩
      · exact absurd hsp (splitOnChar_ne_nil x xs)
      · rw [hsp] at ih
        simp only [List.intercalate, List.intersperse] at ih ⊢
        simpa using ih
    · rw [if_neg hx]
      rcases hsp : splitOnChar c xs with _ | ⟨y, ys⟩
      · exact absurd hsp (splitOnChar_ne_nil c xs)
      · rw [hsp] at ih
        cases ys with
        | nil => simpa [List.intercalate, List.intersperse] using ih
        | cons z zs =>
          simp only [List.intercalate, List.intersperse] at ih ⊢
          simpa using ih

theorem strStartsWith_append (pre rest : Str) :
    strStartsWith (pre ++ rest) pre = true := by
  induction pre with
  | nil => cases rest <;> simp [strStartsWith]
  | cons p ps ih => simp [strStartsWith, ih]

theorem drop_length_append (l₁ l₂ : List Char) : (l₁ ++ l₂).drop l₁.length = l₂ := by
  induction l₁ with
  | nil => simp
  | cons a as ih => simp [ih]

/-! ## JSON values

`JSON.parse` results are embedded as `Json`. JSON numbers are modelled as
integers: the bodies this engine's rules traverse carry ids and status codes,
and no claim depends on fractional numerals (JavaScript number-to-string
formatting of non-integers is not modelled). -/

inductive Json where
  | null
  | bool (b : Bool)
  | num (n : Int)
  | str (s : Str)
  | arr (elements : List Json)
  | obj (fields : List (Str × Json))

/-- JavaScript truthiness of a JSON value (`NaN` cannot arise here). -/
def jsTruthy : Json → Bool
  | .null => false
  | .bool b => b
  | .num n => !(n == 0)
  | .str s => !s.isEmpty
  | .arr _ => true
  | .obj _ => true

/-- Truthiness of a possibly-`undefined` value (`none` models `undefined`). -/
def jsTruthyOpt : Option Json → Bool
  | none => false
  | some j => jsTruthy j

/-- Decimal digit string of a natural number. -/
def natToStr (n : Nat) : Str := (Nat.toDigits 10 n)

/-- JavaScript `String(n)` for an integer-valued number. -/
def intToStr (n : Int) : Str :=
  if n < 0 then '-' :: natToStr n.natAbs else natToStr n.natAbs

/-- String escaping used by `JSON.stringify` (the escapes that can occur in
the header values and bodies this engine handles). -/
def jsonEscape (s : Str) : Str :=
  s.flatMap fun c =>
    if c = '"' then ['\\', '"']
    else if c = '\\' then ['\\', '\\']
    else if c = '\n' then ['\\', 'n']
    else if c = '\r' then ['\\', 'r']
    else if c = '\t' then ['\\', 't']
    else [c]

mutual

/-- Model of `JSON.stringify` on parsed JSON values. -/
def jsonStringify : Json → Str
  | .null => "null".data
  | .bool true => "true".data
  | .bool false => "false".data
  | .num n => intToStr n
  | .str s => '"' :: (jsonEscape s ++ ['"'])
  | .arr xs => '[' :: (jsonStringifyArr xs ++ [']'])
  | .obj fs => '\x7b' :: (jsonStringifyObj fs ++ ['\x7d'])

def jsonStringifyArr : List Json → Str
  | [] => []
  | [x] => jsonStringify x
  | x :: y :: xs => jsonStringify x ++ ',' :: jsonStringifyArr (y :: xs)

def jsonStringifyObj : List (Str × Json) → Str
  | [] => []
  | [(k, v)] => '"' :: (jsonEscape k ++ '"' :: ':' :: jsonStringify v)
  | (k, v) :: f :: fs =>
      ('"' :: (jsonEscape k ++ '"' :: ':' :: jsonStringify v)) ++ ',' :: jsonStringifyObj (f :: fs)

end

/-- JavaScript object property read `obj[key]` (`none` models `undefined`). -/
def objLookupJson (fields : List (Str × Json)) (key : Str) : Option Json :=
  match fields with
  | [] => none
  | (k, v) :: rest => if k = key then some v else objLookupJson rest key

/-- JavaScript object property read on a string-valued record. -/
def objLookupStr (fields : List (Str × Str)) (key : Str) : Option Str :=
  match fields with
  | [] => none
  | (k, v) :: rest => if k = key then some v else objLookupStr rest key

/-- Model of JavaScript `parseInt(s, 10)` (`none` models `NaN`): leading
whitespace skipped, optional sign, then the longest digit prefix. The Scripts
variant calls `parseInt` without a radix; the two differ only on `0x`-prefixed
segments, which no colon-separated field path can sensibly contain. -/
def jsParseInt (s : Str) : Option Int :=
  let t := s.dropWhile fun c => c = ' ' || c = '\t' || c = '\n' || c = '\r'
  match t with
  | '-' :: u =>
    let ds := u.takeWhile Char.isDigit
    if ds.isEmpty then none else some (-(Nat.ofDigits 10 (ds.map fun c => c.toNat - 48).reverse : Int))
  | '+' :: u =>
    let ds := u.takeWhile Char.isDigit
    if ds.isEmpty then none else some (Nat.ofDigits 10 (ds.map fun c => c.toNat - 48).reverse : Int)
  | u =>
    let ds := u.takeWhile Char.isDigit
    if ds.isEmpty then none else some (Nat.ofDigits 10 (ds.map fun c => c.toNat - 48).reverse : Int)

/-- JavaScript array read `a[i]` for a possibly negative index. -/
def arrGet (xs : List Json) (i : Int) : Option Json :=
  if i < 0 then none else xs.get? i.toNat

/-- The value returned once the traversal loop of `extractJsonPath` ends:
strings as-is, numbers and booleans via `toString`, `null`/`undefined` as
`''`, arrays and objects via `JSON.stringify`. -/
def jsonLeafToStr : Option Json → Str
  | none => []
  | some .null => []
  | some (.str s) => s
  | some (.num n) => intToStr n
  | some (.bool b) => if b then "true".data else "false".data
  | some (.arr xs) => jsonStringify (.arr xs)
  | some (.obj fs) => jsonStringify (.obj fs)

/-- The traversal loop of `extractJsonPath` (both variants define it with the
same body): `none` models `current === undefined`. A `null`/`undefined` or
non-object value met before the path ends yields `''`; arrays are indexed by
`parseInt` with the source's `isNaN(idx) || idx >= current.length` guard (a
negative index passes the guard and reads `undefined`, as in the source). -/
def extractJsonPathParts : Option Json → List Str → Str
  | cur, [] => jsonLeafToStr cur
  | none, _ :: _ => []
  | some .null, _ :: _ => []
  | some (.obj fields), part :: rest => extractJsonPathParts (objLookupJson fields part) rest
  | some (.arr xs), part :: rest =>
      match jsParseInt part with
      | none => []
      | some i => if i ≥ (xs.length : Int) then [] else extractJsonPathParts (arrGet xs i) rest
  | some _, _ :: _ => []

/-- `extractJsonPath(json, path)` of both variants: split the path on `:` and
walk object keys / numeric array indices. -/
def extractJsonPath (json : Json) (path : Str) : Str :=
  extractJsonPathParts (some json) (splitOnChar ':' path)

/-! ## Captured exchanges and the rule parser -/

/-- One captured exchange: request headers and, when present, the parsed JSON
response body (`none` models an absent `responseBody` property). -/
structure CapturedData where
  requestHeaders : List (Str × Str)
  responseBody : Option Json

/-- The `capturedApiData` object: URL-keyed, insertion-ordered. -/
abbrev CapMap := List (Str × CapturedData)

/-- JavaScript object assignment `m[k] = v`: an existing key keeps its
position and takes the new value, a new key is appended. -/
def objSet (m : List (Str × α)) (k : Str) (v : α) : List (Str × α) :=
  if m.any (fun kv => kv.1 == k) then
    m.map fun kv => if kv.1 == k then (k, v) else kv
  else m ++ [(k, v)]

/-- First-match association lookup on a URL-keyed map. -/
def objLookup (m : List (Str × α)) (k : Str) : Option α :=
  match m with
  | [] => none
  | (k', v) :: rest => if k' = k then some v else objLookup rest k

/-- The rule-envelope opener `$\x7bapi:` (6 characters). -/
def apiPrefix : Str := "$\x7bapi:".data

/-- The rule-envelope opener `$\x7blocalStorage:` (15 characters). -/
def storagePrefix : Str := "$\x7blocalStorage:".data

/-- Result of `RuleParser.parse` in the Scripts variant. -/
inductive ParsedRule where
  | fixed (value : Str)
  | api (apiPath requestType extractType fieldPath : Str)
  | storage (key : Str)
deriving DecidableEq

namespace RuleParser

/-- `RuleParser.parseApiRule` (Scripts variant, lines 67-82): strip
`$\x7bapi:` and the final `\x7d` via `slice(6, -1)`, split on `:`; fewer than
3 tokens degrades to a fixed rule, otherwise tokens 0-2 are path-substring,
request/response and headers/body, and the remainder rejoined with `:` is the
field path. -/
def parseApiRule (rule : Str) : ParsedRule :=
  let parts := splitOnChar ':' ((rule.drop 6).dropLast)
  if parts.length < 3 then .fixed rule
  else
    match parts with
    | p0 :: p1 :: p2 :: rest => .api p0 p1 p2 (List.intercalate [':'] rest)
    | _ => .fixed rule

/-- `RuleParser.parseStorageRule` (Scripts variant, lines 85-88). The source
comment says `slice(14, -1)` removes `$\x7blocalStorage:` and `\x7d`, but that
prefix is 15 characters long, so the extracted key keeps a leading `:`. -/
def parseStorageRule (rule : Str) : ParsedRule :=
  .storage ((rule.drop 14).dropLast)

/-- `RuleParser.parse` (Scripts variant, lines 57-64). -/
def parse (rule : Str) : ParsedRule :=
  if strStartsWith rule apiPrefix then parseApiRule rule
  else if strStartsWith rule storagePrefix then parseStorageRule rule
  else .fixed rule

end RuleParser

/-- `extractApiPath` (identical in both variants): for an `api` rule return
the text between `$\x7bapi:` and the first following `:`; `none` models the
`null` returned otherwise. -/
def extractApiPath (rule : Str) : Option Str :=
  if strStartsWith rule "$\x7bapi:".data then
    let content := (rule.drop 6).dropLast
    let pre := content.takeWhile (fun c => c ≠ ':')
    if pre.length > 0 && pre.length < content.length then some pre else none
  else none

namespace Scripts

/-- The case-insensitive header loop of the Scripts `evaluateRule`
(lines 133-139): first header whose lowercased name equals the lowercased
field wins; `''` if none does. -/
def lookupHeaderCI (headers : List (Str × Str)) (field : Str) : Str :=
  match headers with
  | [] => []
  | (name, value) :: rest =>
      if toLowerStr name == toLowerStr field then value else lookupHeaderCI rest field

/-- The `for (const [url, data] of Object.entries(apiData))` loop of the
Scripts `evaluateRule` (lines 128-150). A URL match on `request`/`headers`
returns from the function (the header miss returns `''` directly); a URL
match on `response`/`body` returns only when the field path and the captured
body are both truthy, otherwise the loop continues with the next exchange. -/
def apiScan (apiPath requestType extractType fieldPath : Str) : CapMap → Str
  | [] => []
  | (url, data) :: rest =>
    if strIncludes url apiPath then
      if requestType == "request".data && extractType == "headers".data then
        if !fieldPath.isEmpty then lookupHeaderCI data.requestHeaders fieldPath
        else jsonStringify (.obj (data.requestHeaders.map fun kv => (kv.1, .str kv.2)))
      else if requestType == "response".data && extractType == "body".data then
        if !fieldPath.isEmpty && jsTruthyOpt data.responseBody then
          extractJsonPath (data.responseBody.getD .null) fieldPath
        else apiScan apiPath requestType extractType fieldPath rest
      else apiScan apiPath requestType extractType fieldPath rest
    else apiScan apiPath requestType extractType fieldPath rest

/-- `evaluateRule` of the Scripts variant (lines 119-159): fixed rules return
their value, `api` rules scan the captured exchanges, `localStorage` rules
return `''` (they need the browser context and are not resolved here). -/
def evaluateRule (rule : Str) (apiData : CapMap) : Str :=
  match RuleParser.parse rule with
  | .fixed v => v
  | .api p rt et fp => apiScan p rt et fp apiData
  | .storage _ => []

end Scripts

namespace Tauri

/-- The exchange loop of the Tauri `evaluateRule` (lines 168-180):
`request`/`headers` reads `data.requestHeaders[fieldPath]` (exact, case
sensitive name) and returns it only when truthy, otherwise the loop
continues; `response`/`body` returns the JSON-path extraction when the body
is truthy. -/
def apiScan (apiPath requestType extractType fieldPath : Str) : CapMap → Str
  | [] => []
  | (url, data) :: rest =>
    if strIncludes url apiPath then
      if requestType == "request".data && extractType == "headers".data then
        match objLookupStr data.requestHeaders fieldPath with
        | some v => if !v.isEmpty then v else apiScan apiPath requestType extractType fieldPath rest
        | none => apiScan apiPath requestType extractType fieldPath rest
      else if requestType == "response".data && extractType == "body".data then
        if jsTruthyOpt data.responseBody then
          extractJsonPath (data.responseBody.getD .null) fieldPath
        else apiScan apiPath requestType extractType fieldPath rest
      else apiScan apiPath requestType extractType fieldPath rest
    else apiScan apiPath requestType extractType fieldPath rest

/-- `evaluateRule` of the Tauri variant (lines 151-190): a falsy rule gives
`''`; an `$\x7bapi:...\x7d` rule with fewer than 3 tokens gives `''` (not the
rule text); a `$\x7blocalStorage:...\x7d` rule is re-emitted as a placeholder
built from `slice(14, -1)`, which keeps a leading `:` of the key; anything
else is a fixed value returned as-is. -/
def evaluateRule (rule : Str) (apiData : CapMap) : Str :=
  if rule.isEmpty then []
  else if strStartsWith rule apiPrefix then
    let parts := splitOnChar ':' ((rule.drop 6).dropLast)
    if parts.length < 3 then []
    else
      match parts with
      | p0 :: p1 :: p2 :: rest => apiScan p0 p1 p2 (List.intercalate [':'] rest) apiData
      | _ => []
  else if strStartsWith rule storagePrefix then
    storagePrefix ++ ((rule.drop 14).dropLast ++ ['\x7d'])
  else rule

end Tauri

/-- Digits of a decimal numeral, most significant first. -/
def digitsVal (ds : Str) : Nat :=
  ds.foldl (fun a c => 10 * a + (c.toNat - 48)) 0

/-- Model of JavaScript `parseFloat` on the decimal numerals the login
comparison uses (`none` models `NaN`): leading whitespace skipped, optional
sign, longest `digits[.digits]` prefix, valued exactly as a rational
(exponent notation and IEEE rounding are not modelled; no claim exercises
them). -/
def jsParseFloat (s : Str) : Option Rat :=
  let t := s.dropWhile fun c => c = ' ' || c = '\t' || c = '\n' || c = '\r'
  let unsignedVal : Str → Option Rat := fun u =>
    let ds := u.takeWhile Char.isDigit
    let rest := u.drop ds.length
    match ds, rest with
    | [], '.' :: rest2 =>
      let fs := rest2.takeWhile Char.isDigit
      if fs.isEmpty then none else some ((digitsVal fs : Rat) / (10 ^ fs.length : Nat))
    | [], _ => none
    | _ :: _, '.' :: rest2 =>
      let fs := rest2.takeWhile Char.isDigit
      some ((digitsVal ds : Rat) + (digitsVal fs : Rat) / (10 ^ fs.length : Nat))
    | _ :: _, _ => some (digitsVal ds : Rat)
  match t with
  | '-' :: u => (unsignedVal u).map Neg.neg
  | '+' :: u => unsignedVal u
  | u => unsignedVal u

/-- `matchValue` (identical in both variants, Scripts lines 174-211, Tauri
lines 52-89): the arguments are the `String(...)` images of the compared
values. Numeric operators go through `parseFloat`; an unknown operator falls
through to string equality. -/
def matchValue (actual operator expected : Str) : Bool :=
  if operator == "Eq".data || operator == "Equals".data || operator == "=".data then
    actual == expected
  else if operator == "Neq".data || operator == "NotEquals".data || operator == "!=".data then
    !(actual == expected)
  else if operator == "Contains".data then strIncludes actual expected
  else if operator == "NotContains".data then !(strIncludes actual expected)
  else if operator == "StartsWith".data then strStartsWith actual expected
  else if operator == "EndsWith".data then strEndsWith actual expected
  else if operator == "Gt".data || operator == ">".data then
    match jsParseFloat actual, jsParseFloat expected with
    | some a, some b => decide (a > b)
    | _, _ => false
  else if operator == "Lt".data || operator == "<".data then
    match jsParseFloat actual, jsParseFloat expected with
    | some a, some b => decide (a < b)
    | _, _ => false
  else if operator == "Gte".data || operator == ">=".data then
    match jsParseFloat actual, jsParseFloat expected with
    | some a, some b => decide (a ≥ b)
    | _, _ => false
  else if operator == "Lte".data || operator == "<=".data then
    match jsParseFloat actual, jsParseFloat expected with
    | some a, some b => decide (a ≤ b)
    | _, _ => false
  else actual == expected

/-! ## Traffic capture handlers -/

/-- One observed network response, as delivered to a `page.on('response')`
handler. `parsedBody` is the outcome of reading the body text and parsing it
as JSON (`JSON.parse` / `response.json()`); `none` models a read or parse
failure, which both handlers swallow in a `try`/`catch`. `reqHeaders` are the
request headers recorded for the same URL. -/
structure RespEvent where
  url : Str
  status : Nat
  contentType : Str
  reqHeaders : List (Str × Str)
  parsedBody : Option Json

namespace Scripts

/-- The Scripts capture handler (lines 365-393): capture whenever the URL
contains one of the watched API paths and the body parses as JSON. This
variant checks neither the status code nor the content type. -/
def onResponseCapture (apiPaths : List Str) (m : CapMap) (ev : RespEvent) : CapMap :=
  if apiPaths.any (fun p => strIncludes ev.url p) then
    match ev.parsedBody with
    | some body => objSet m ev.url ⟨ev.reqHeaders, some body⟩
    | none => m
  else m

/-- The condition under which the Scripts handler stores an entry. -/
def capturesEv (apiPaths : List Str) (ev : RespEvent) : Bool :=
  apiPaths.any (fun p => strIncludes ev.url p) && ev.parsedBody.isSome

end Scripts

namespace Tauri

/-- The Tauri capture handler (lines 246-267): capture whenever the status is
2xx, the content type contains `application/json` and the body parses. This
variant does not filter URLs against the watched API paths. -/
def onResponseCapture (m : CapMap) (ev : RespEvent) : CapMap :=
  if 200 ≤ ev.status && ev.status < 300 then
    if strIncludes ev.contentType "application/json".data then
      match ev.parsedBody with
      | some body => objSet m ev.url ⟨ev.reqHeaders, some body⟩
      | none => m
    else m
  else m

/-- The condition under which the Tauri handler stores an entry. -/
def capturesEv (ev : RespEvent) : Bool :=
  (200 ≤ ev.status && ev.status < 300) &&
    strIncludes ev.contentType "application/json".data && ev.parsedBody.isSome

/-- The redirect guard of the Tauri wait loop (line 386):
`loginSuccess && redirectUrl && !currentUrl.includes(redirectUrl.split('?')[0])`. -/
def redirectGuard (loginSuccess : Bool) (redirectUrl currentUrl : Str) : Bool :=
  loginSuccess && !redirectUrl.isEmpty &&
    !(strIncludes currentUrl ((splitOnChar '?' redirectUrl).headD []))

/-- One pass of the redirect branch (lines 386-399): when the guard holds,
`for (const key in capturedApiData) delete capturedApiData[key]` empties the
map before `page.goto(redirectUrl)`. -/
def redirectStep (loginSuccess : Bool) (redirectUrl currentUrl : Str) (m : CapMap) : CapMap :=
  if redirectGuard loginSuccess redirectUrl currentUrl then [] else m

end Tauri

/-! ## The URL glob matcher (Tauri variant, lines 511-535)

`matchUrlPattern` builds a regex source string by textual replacement and
hands it to `new RegExp`. The regex evaluation is modelled for exactly the
construct set those replacements can produce from a glob made of URL
characters and wildcards: literal characters, `\.` escapes, `.`, and a `*`
quantifier on either; `parseRegexSeq` answers `none` on anything else, which
`matchUrlPattern` treats as the `catch` branch of the source (fall back to
`url.includes(pattern)`). -/

/-- `pattern.replace(/\./g, '\\.')`. -/
def escapeDots : Str → Str
  | [] => []
  | c :: cs => if c = '.' then '\\' :: '.' :: escapeDots cs else c :: escapeDots cs

/-- `.replace(/\*/g, '.*')`. -/
def expandStars : Str → Str
  | [] => []
  | c :: cs => if c = '*' then '.' :: '*' :: expandStars cs else c :: expandStars cs

/-- `.replace(/\?/g, '.')`. -/
def replaceQMarks : Str → Str
  | [] => []
  | c :: cs => if c = '?' then '.' :: replaceQMarks cs else c :: replaceQMarks cs

/-- `.replace(/\.\*\*/g, '.*')`: a left-to-right, non-overlapping global
replace of the three-character run `.**` (after `*` expansion no such run
remains, so this step never fires; it is kept because the source performs
it). -/
def collapseDotStarStar : Str → Str
  | '.' :: '*' :: '*' :: rest => '.' :: '*' :: collapseDotStarStar rest
  | c :: rest => c :: collapseDotStarStar rest
  | [] => []

/-- The regex source string built by `matchUrlPattern`, anchors included. -/
def globToRegexStr (pattern : Str) : Str :=
  '^' :: (collapseDotStarStar (replaceQMarks (expandStars (escapeDots pattern))) ++ ['$'])

/-- Elements of the regex subset the glob translation can produce. -/
inductive RElem where
  | lit (c : Char)
  | anyChar
  | starLit (c : Char)
  | starAny
deriving DecidableEq

/-- Characters that stand for themselves in a JavaScript regex. -/
def isRegexLiteralChar (c : Char) : Bool :=
  !("\\^$.*+?()[]\x7b\x7d|".data.contains c)

/-- Parse the regex body (between `^` and `$`); `none` models a syntax error
thrown by `new RegExp`. -/
def parseRegexSeq : Str → Option (List RElem)
  | [] => some []
  | '\\' :: '.' :: '*' :: rest => (parseRegexSeq rest).map (RElem.starLit '.' :: ·)
  | '\\' :: '.' :: rest => (parseRegexSeq rest).map (RElem.lit '.' :: ·)
  | '\\' :: _ :: _ => none
  | ['\\'] => none
  | '.' :: '*' :: rest => (parseRegexSeq rest).map (RElem.starAny :: ·)
  | '.' :: rest => (parseRegexSeq rest).map (RElem.anyChar :: ·)
  | c :: '*' :: rest =>
      if isRegexLiteralChar c then (parseRegexSeq rest).map (RElem.starLit c :: ·) else none
  | c :: rest =>
      if isRegexLiteralChar c then (parseRegexSeq rest).map (RElem.lit c :: ·) else none

/-- Backtracking matcher for the regex subset, anchored at both ends. Every
recursive call shortens the element list or the subject string, so the
explicit fuel (any value above their combined length) never runs out; it only
makes the recursion structural so that the function reduces inside the
kernel. -/
def reMatchF : Nat → List RElem → Str → Bool
  | 0, _, _ => false
  | _ + 1, [], [] => true
  | _ + 1, [], _ :: _ => false
  | _ + 1, RElem.lit _ :: _, [] => false
  | fuel + 1, RElem.lit c :: rs, x :: xs => c == x && reMatchF fuel rs xs
  | _ + 1, RElem.anyChar :: _, [] => false
  | fuel + 1, RElem.anyChar :: rs, _ :: xs => reMatchF fuel rs xs
  | fuel + 1, RElem.starLit c :: rs, s =>
      reMatchF fuel rs s ||
        (match s with
         | x :: xs => c == x && reMatchF fuel (RElem.starLit c :: rs) xs
         | [] => false)
  | fuel + 1, RElem.starAny :: rs, s =>
      reMatchF fuel rs s ||
        (match s with
         | _ :: xs => reMatchF fuel (RElem.starAny :: rs) xs
         | [] => false)

/-- Anchored match with always-sufficient fuel. -/
def reMatch (rs : List RElem) (s : Str) : Bool :=
  reMatchF (rs.length + s.length + 1) rs s

/-- `new RegExp(re).test(s)` for the `^...$`-anchored strings the glob
translation produces; `none` models the constructor throwing. -/
def jsRegexTest (re : Str) (s : Str) : Option Bool :=
  match re with
  | '^' :: rest =>
    if rest.getLast? = some '$' then (parseRegexSeq rest.dropLast).map (reMatch · s)
    else none
  | _ => none

/-- `matchUrlPattern(url, pattern)` (Tauri variant, lines 511-535): falsy
arguments fail, an exact string match succeeds, otherwise the glob is
translated to a regex and tested against the whole URL; a regex construction
error falls back to substring containment. -/
def matchUrlPattern (url pattern : Str) : Bool :=
  if pattern.isEmpty || url.isEmpty then false
  else if pattern == url then true
  else
    match jsRegexTest (globToRegexStr pattern) url with
    | some b => b
    | none => strIncludes url pattern

/-! ## Result builders -/

namespace Scripts

/-- The `request_headers` / `user_info` blocks of the Scripts result object
(lines 590-612): walk the configured rule map (configuration objects have
unique keys, so JavaScript object assignment in entry order is a map over the
entries), evaluating `$\x7bapi:...\x7d` rules and passing every other rule
string through verbatim. -/
def buildResultMap (rules : List (Str × Str)) (apiData : CapMap) : List (Str × Str) :=
  rules.map fun kr =>
    (kr.1, if strStartsWith kr.2 apiPrefix then evaluateRule kr.2 apiData else kr.2)

end Scripts

namespace Tauri

/-- One iteration of the `userInfo` / `requestHeaders` loops of the Tauri
main (lines 438-452): `const value = evaluateRule(...); if (value)` — the
key is stored only when the value is truthy (non-empty). -/
def buildStep (apiData : CapMap) (acc : List (Str × Str)) (kr : Str × Str) :
    List (Str × Str) :=
  if !(evaluateRule kr.2 apiData).isEmpty then
    acc ++ [(kr.1, evaluateRule kr.2 apiData)]
  else acc

/-- The `userInfo` / `requestHeaders` loops of the Tauri main (lines 438-452):
evaluate every rule but store the key only when the value is truthy; keys
whose rules evaluate to `''` are omitted (configuration objects have unique
keys, so object assignment in entry order is an append). -/
def buildResultMap (rules : List (Str × Str)) (apiData : CapMap) : List (Str × Str) :=
  rules.foldl (buildStep apiData) []

end Tauri

/-! ## Process-level output and exit model

The abstraction used for the exit-behavior claim: a run is summarised by the
bracketed `RESULT_JSON_START`/`RESULT_JSON_END` blocks it writes to stdout
(tagged by their `step` field), its exit code, and whether a browser was
launched. The browser session itself is abstracted into a `SessionOutcome`:
the body of the `try` block after config loading either produces a result or
throws with a message. Teardown (`browser.close()` in `finally`) is modelled
as non-throwing. -/

/-- The `step` tag of an emitted bracketed result block. -/
inductive BlockTag where
  | completed
  | failed
  | errorTag
deriving DecidableEq

/-- What the operating system sees of one run. -/
structure ProcOut where
  brackets : List BlockTag
  exitCode : Nat
  browserLaunched : Bool
deriving DecidableEq

/-- Outcome of the browser session once it starts. -/
inductive SessionOutcome where
  | ok
  | thrown (msg : Str)
deriving DecidableEq

namespace Scripts

/-- Where the Scripts variant gets its configuration (lines 238-283): the
`AMM_CONFIG` environment variable, or a config file. The `Option Unit`
parameter is the outcome of `JSON.parse` on that text (`none` = parse threw). -/
inductive ConfigSource where
  | envVar (parsed : Option Unit)
  | file (fileExists : Bool) (parsed : Option Unit)
deriving DecidableEq

/-- The Scripts `main` (lines 213-644) at the process level: a missing
platform id or a missing/unparseable config calls `process.exit(1)` before
`chromium.launch`; afterwards the `try`/`catch` emits exactly one bracketed
block (`step: completed` or `step: failed`) and the process ends with code 0. -/
def runMain (platformIdGiven : Bool) (src : ConfigSource) (outcome : SessionOutcome) : ProcOut :=
  if !platformIdGiven then ⟨[], 1, false⟩
  else
    match src with
    | .envVar none => ⟨[], 1, false⟩
    | .file false _ => ⟨[], 1, false⟩
    | .file true none => ⟨[], 1, false⟩
    | .envVar (some _) | .file true (some _) =>
      match outcome with
      | .ok => ⟨[.completed], 0, true⟩
      | .thrown _ => ⟨[.failed], 0, true⟩

end Scripts

namespace Tauri

/-- The Tauri `main` (lines 195-506) at the process level. `envConfig` is the
`AMM_CONFIG` environment variable: absent, set but unparseable, or parsed.
`getConfig` is called inside the `try`, so a config error is caught like any
other exception: the `catch` emits one bracketed `step: error` block and the
process exits 0; the browser is never launched in that case because
`chromium.launch` comes after `getConfig`. -/
def runMain (envConfig : Option (Option Unit)) (outcome : SessionOutcome) : ProcOut :=
  match envConfig with
  | none => ⟨[.errorTag], 0, false⟩
  | some none => ⟨[.errorTag], 0, false⟩
  | some (some _) =>
    match outcome with
    | .ok => ⟨[.completed], 0, true⟩
    | .thrown _ => ⟨[.errorTag], 0, true⟩

end Tauri


/-! ## Rule-construction lemmas -/

/-- A syntactically well-formed four-part API rule
`$\x7bapi:<p>:<rt>:<et>:<fp>\x7d`. -/
def mkApiRule (p rt et fp : Str) : Str :=
  apiPrefix ++ ((p ++ ':' :: (rt ++ ':' :: (et ++ ':' :: fp))) ++ ['\x7d'])

theorem ne_nil_of_strStartsWith (rule pre : Str) (hpre : pre ≠ [])
    (h : strStartsWith rule pre = true) : rule ≠ [] := by
  intro hr
  subst hr
  cases pre with
  | nil => exact hpre rfl
  | cons c cs => simp [strStartsWith] at h

theorem dropLast_append_singleton (l : List Char) (a : Char) : (l ++ [a]).dropLast = l := by
  simp

theorem mkApiRule_startsWith (p rt et fp : Str) :
    strStartsWith (mkApiRule p rt et fp) apiPrefix = true :=
  strStartsWith_append _ _

theorem mkApiRule_content (p rt et fp : Str) :
    ((mkApiRule p rt et fp).drop 6).dropLast = p ++ ':' :: (rt ++ ':' :: (et ++ ':' :: fp)) := by
  unfold mkApiRule
  have h6 : apiPrefix.length = 6 := rfl
  rw [← h6, drop_length_append, dropLast_append_singleton]

theorem mkApiRule_split (p rt et fp : Str) (hp : ':' ∉ p) (hrt : ':' ∉ rt) (het : ':' ∉ et) :
    splitOnChar ':' (((mkApiRule p rt et fp).drop 6).dropLast) =
      p :: rt :: et :: splitOnChar ':' fp := by
  rw [mkApiRule_content, splitOnChar_append_cons ':' p _ hp,
      splitOnChar_append_cons ':' rt _ hrt, splitOnChar_append_cons ':' et _ het]

theorem parse_mkApiRule (p rt et fp : Str) (hp : ':' ∉ p) (hrt : ':' ∉ rt) (het : ':' ∉ et) :
    RuleParser.parse (mkApiRule p rt et fp) = ParsedRule.api p rt et fp := by
  have hsplit := mkApiRule_split p rt et fp hp hrt het
  have hlen : ¬ (p :: rt :: et :: splitOnChar ':' fp).length < 3 := by
    simp only [List.length_cons]
    omega
  simp only [RuleParser.parse, mkApiRule_startsWith, if_true, RuleParser.parseApiRule, hsplit,
    if_neg hlen, intercalate_splitOnChar]

theorem scripts_eval_mkApiRule (p rt et fp : Str) (m : CapMap)
    (hp : ':' ∉ p) (hrt : ':' ∉ rt) (het : ':' ∉ et) :
    Scripts.evaluateRule (mkApiRule p rt et fp) m = Scripts.apiScan p rt et fp m := by
  simp only [Scripts.evaluateRule, parse_mkApiRule p rt et fp hp hrt het]

theorem tauri_eval_mkApiRule (p rt et fp : Str) (m : CapMap)
    (hp : ':' ∉ p) (hrt : ':' ∉ rt) (het : ':' ∉ et) :
    Tauri.evaluateRule (mkApiRule p rt et fp) m = Tauri.apiScan p rt et fp m := by
  have hne : mkApiRule p rt et fp ≠ [] :=
    ne_nil_of_strStartsWith _ _ (by decide) (mkApiRule_startsWith p rt et fp)
  have hempty : (mkApiRule p rt et fp).isEmpty = false := by
    cases hmk : mkApiRule p rt et fp with
    | nil => exact absurd hmk hne
    | cons c cs => simp [List.isEmpty]
  have hsplit := mkApiRule_split p rt et fp hp hrt het
  have hlen : ¬ (p :: rt :: et :: splitOnChar ':' fp).length < 3 := by
    simp only [List.length_cons]
    omega
  simp only [Tauri.evaluateRule, hempty, Bool.false_eq_true, if_false,
    mkApiRule_startsWith, if_true, hsplit, if_neg hlen, intercalate_splitOnChar]

/-! ## Claim C1: fixed-value law and malformed API rules -/

/-- C1 (amended). For every rule string starting with neither `$\x7bapi:` nor
`$\x7blocalStorage:`, both evaluators return the input unchanged. For every
`$\x7bapi:...\x7d` rule whose bracket content splits on `:` into fewer than 3
tokens, the Scripts parser yields a fixed rule and the Scripts evaluator
returns the whole rule string unchanged, while the Tauri evaluator returns
the empty string; neither evaluator can throw (both are total functions). -/
theorem C1_fixed_rule_law (rule : Str) (m : CapMap) :
    (strStartsWith rule apiPrefix = false →
     strStartsWith rule storagePrefix = false →
     Scripts.evaluateRule rule m = rule ∧ Tauri.evaluateRule rule m = rule) ∧
    (strStartsWith rule apiPrefix = true →
     (splitOnChar ':' ((rule.drop 6).dropLast)).length < 3 →
     RuleParser.parse rule = ParsedRule.fixed rule ∧
     Scripts.evaluateRule rule m = rule ∧ Tauri.evaluateRule rule m = []) := by
  constructor
  · intro hA hL
    constructor
    · simp [Scripts.evaluateRule, RuleParser.parse, hA, hL]
    · cases hr : rule with
      | nil => simp [Tauri.evaluateRule]
      | cons c cs =>
        rw [← hr]
        have hempty : rule.isEmpty = false := by rw [hr]; simp [List.isEmpty]
        simp [Tauri.evaluateRule, hempty, hA, hL]
  · intro hA hlen
    have hne : rule ≠ [] := ne_nil_of_strStartsWith _ _ (by decide) hA
    have hempty : rule.isEmpty = false := by
      cases hr : rule with
      | nil => exact absurd hr hne
      | cons c cs => simp [List.isEmpty]
    have hparse : RuleParser.parse rule = ParsedRule.fixed rule := by
      simp [RuleParser.parse, RuleParser.parseApiRule, hA, if_pos hlen]
    refine ⟨hparse, ?_, ?_⟩
    · simp [Scripts.evaluateRule, hparse]
    · simp [Tauri.evaluateRule, hempty, hA, if_pos hlen]

/-- C1 witness: the theorem applied to the fixed rule `hello` and to the
malformed rule `$\x7bapi:a:b\x7d` (two tokens). -/
theorem C1_fixed_rule_law_witness :
    (Scripts.evaluateRule "hello".data [] = "hello".data ∧
      Tauri.evaluateRule "hello".data [] = "hello".data) ∧
    Scripts.evaluateRule "$\x7bapi:a:b\x7d".data [] = "$\x7bapi:a:b\x7d".data ∧
    Tauri.evaluateRule "$\x7bapi:a:b\x7d".data [] = [] := by
  refine ⟨(C1_fixed_rule_law "hello".data []).1 (by decide) (by decide), ?_, ?_⟩
  · exact ((C1_fixed_rule_law "$\x7bapi:a:b\x7d".data []).2 (by decide) (by decide)).2.1
  · exact ((C1_fixed_rule_law "$\x7bapi:a:b\x7d".data []).2 (by decide) (by decide)).2.2

/-- C1 counterexample to the claim as stated: for the malformed rule
`$\x7bapi:a:b\x7d` (two tokens) the Tauri `evaluateRule` returns `''`, not
the whole original rule string. -/
theorem C1_counterexample :
    Tauri.evaluateRule "$\x7bapi:a:b\x7d".data [] = [] ∧
    "$\x7bapi:a:b\x7d".data ≠ ([] : Str) := by
  decide

/-! ## Claim C5: the localStorage key off-by-one -/

/-- C5: `parseStorageRule` is documented (in its own source comment) to strip
the 15-character prefix `$\x7blocalStorage:` and the closing `\x7d`, but
`slice(14, -1)` strips only 14 characters, so the parsed key for the rule
`$\x7blocalStorage:foo\x7d` is `:foo`, not `foo`; and instead of leaving the
placeholder intact, the Tauri evaluator re-emits it with a doubled colon,
`$\x7blocalStorage::foo\x7d`. The Scripts evaluator maps storage rules to
`''`. -/
theorem C5_storage_key_off_by_one :
    RuleParser.parse "$\x7blocalStorage:foo\x7d".data = ParsedRule.storage ":foo".data ∧
    Scripts.evaluateRule "$\x7blocalStorage:foo\x7d".data [] = [] ∧
    Tauri.evaluateRule "$\x7blocalStorage:foo\x7d".data [] =
      "$\x7blocalStorage::foo\x7d".data ∧
    ":foo".data ≠ "foo".data ∧
    "$\x7blocalStorage::foo\x7d".data ≠ "$\x7blocalStorage:foo\x7d".data := by
  decide

/-! ## Claim C6: the URL glob matcher -/

/-- C6: the translated glob performs an anchored whole-string regex match:
`**/creator-micro/**` matches `https://foo.com/abc/creator-micro/def` and
does not match `https://foo.com/creator-macro/x`; a pattern without
wildcards only matches the whole URL. The final conjunct records the
translated regex source: each `*` becomes `.*` (so `**` becomes `.*.*`,
which denotes the same language as the `.*` the spec describes), `.` is
escaped, and the result is anchored with `^`/`$`. -/
theorem C6_glob_matcher :
    matchUrlPattern "https://foo.com/abc/creator-micro/def".data "**/creator-micro/**".data
      = true ∧
    matchUrlPattern "https://foo.com/creator-macro/x".data "**/creator-micro/**".data
      = false ∧
    matchUrlPattern "xfooy".data "foo".data = false ∧
    globToRegexStr "**/creator-micro/**".data = "^.*.*/creator-micro/.*.*$".data := by
  decide

/-! ## Claim C10: unknown comparison operators behave as Eq -/

/-- C10: for every operator string outside the recognized set (the ten
documented names and their aliases `Equals`, `NotEquals`, `=`, `!=`, `>`,
`<`, `>=`, `<=`), `matchValue` neither fails nor returns a distinguished
error: it falls through to plain string equality of the two values, i.e. it
behaves exactly as `Eq`. -/
theorem C10_unknown_operator (a op e : Str)
    (h : op ∉ ["Eq".data, "Equals".data, "=".data, "Neq".data, "NotEquals".data, "!=".data,
               "Contains".data, "NotContains".data, "StartsWith".data, "EndsWith".data,
               "Gt".data, ">".data, "Lt".data, "<".data, "Gte".data, ">=".data,
               "Lte".data, "<=".data]) :
    matchValue a op e = (a == e) ∧ matchValue a op e = matchValue a "Eq".data e := by
  simp only [List.mem_cons, List.not_mem_nil, or_false, not_or] at h
  obtain ⟨h1, h2, h3, h4, h5, h6, h7, h8, h9, h10, h11, h12, h13, h14, h15, h16, h17, h18⟩ := h
  have hmain : matchValue a op e = (a == e) := by
    simp [matchValue, h1, h2, h3, h4, h5, h6, h7, h8, h9, h10, h11, h12, h13, h14, h15, h16,
      h17, h18]
  have heq : matchValue a "Eq".data e = (a == e) := by
    simp [matchValue]
  exact ⟨hmain, hmain.trans heq.symm⟩

/-- C10 witness: the theorem applied to the unknown operator `Foo`. -/
theorem C10_unknown_operator_witness :
    matchValue "x".data "Foo".data "x".data = ("x".data == "x".data) ∧
    matchValue "x".data "Foo".data "y".data = ("x".data == "y".data) := by
  exact ⟨(C10_unknown_operator "x".data "Foo".data "x".data (by decide)).1,
    (C10_unknown_operator "x".data "Foo".data "y".data (by decide)).1⟩

/-! ## Scan lemmas for the evaluators -/

theorem isEmpty_false_of_ne_nil (l : Str) (h : l ≠ []) : l.isEmpty = false := by
  cases l with
  | nil => exact absurd rfl h
  | cons c cs => simp [List.isEmpty]

theorem scripts_apiScan_body_empty (p rt et fp : Str) (m : CapMap)
    (hhdr : (rt == "request".data && et == "headers".data) = false)
    (hbody : (rt == "response".data && et == "body".data) = true)
    (h : ∀ e ∈ m, strIncludes e.1 p = false ∨ jsTruthyOpt e.2.responseBody = false) :
    Scripts.apiScan p rt et fp m = [] := by
  induction m with
  | nil => simp [Scripts.apiScan]
  | cons ud rest ih =>
    obtain ⟨u, d⟩ := ud
    have hud := h (u, d) (List.mem_cons_self _ _)
    have hrest := ih fun e he => h e (List.mem_cons_of_mem _ he)
    rcases hud with hu | hb
    · simp [Scripts.apiScan, hu, hrest]
    · by_cases hu : strIncludes u p = true
      · simp [Scripts.apiScan, hu, hhdr, hbody, hb, hrest]
      · simp only [Bool.not_eq_true] at hu
        simp [Scripts.apiScan, hu, hrest]

theorem scripts_apiScan_body_first (p rt et fp u : Str) (d : CapturedData) (pre post : CapMap)
    (hhdr : (rt == "request".data && et == "headers".data) = false)
    (hbody : (rt == "response".data && et == "body".data) = true)
    (hfp : fp.isEmpty = false)
    (hpre : ∀ e ∈ pre, strIncludes e.1 p = false ∨ jsTruthyOpt e.2.responseBody = false)
    (hu : strIncludes u p = true) (hb : jsTruthyOpt d.responseBody = true) :
    Scripts.apiScan p rt et fp (pre ++ (u, d) :: post) =
      extractJsonPath (d.responseBody.getD Json.null) fp := by
  induction pre with
  | nil => simp [Scripts.apiScan, hu, hhdr, hbody, hfp, hb]
  | cons ud rest ih =>
    obtain ⟨u', d'⟩ := ud
    have hud := hpre (u', d') (List.mem_cons_self _ _)
    have hrest := ih fun e he => hpre e (List.mem_cons_of_mem _ he)
    rcases hud with hu' | hb'
    · simp [Scripts.apiScan, hu', hrest]
    · by_cases hu' : strIncludes u' p = true
      · simp [Scripts.apiScan, hu', hhdr, hbody, hb', hrest]
      · simp only [Bool.not_eq_true] at hu'
        simp [Scripts.apiScan, hu', hrest]

theorem tauri_apiScan_body_empty (p rt et fp : Str) (m : CapMap)
    (hhdr : (rt == "request".data && et == "headers".data) = false)
    (hbody : (rt == "response".data && et == "body".data) = true)
    (h : ∀ e ∈ m, strIncludes e.1 p = false ∨ jsTruthyOpt e.2.responseBody = false) :
    Tauri.apiScan p rt et fp m = [] := by
  induction m with
  | nil => simp [Tauri.apiScan]
  | cons ud rest ih =>
    obtain ⟨u, d⟩ := ud
    have hud := h (u, d) (List.mem_cons_self _ _)
    have hrest := ih fun e he => h e (List.mem_cons_of_mem _ he)
    rcases hud with hu | hb
    · simp [Tauri.apiScan, hu, hrest]
    · by_cases hu : strIncludes u p = true
      · simp [Tauri.apiScan, hu, hhdr, hbody, hb, hrest]
      · simp only [Bool.not_eq_true] at hu
        simp [Tauri.apiScan, hu, hrest]

theorem tauri_apiScan_body_first (p rt et fp u : Str) (d : CapturedData) (pre post : CapMap)
    (hhdr : (rt == "request".data && et == "headers".data) = false)
    (hbody : (rt == "response".data && et == "body".data) = true)
    (hpre : ∀ e ∈ pre, strIncludes e.1 p = false ∨ jsTruthyOpt e.2.responseBody = false)
    (hu : strIncludes u p = true) (hb : jsTruthyOpt d.responseBody = true) :
    Tauri.apiScan p rt et fp (pre ++ (u, d) :: post) =
      extractJsonPath (d.responseBody.getD Json.null) fp := by
  induction pre with
  | nil => simp [Tauri.apiScan, hu, hhdr, hbody, hb]
  | cons ud rest ih =>
    obtain ⟨u', d'⟩ := ud
    have hud := hpre (u', d') (List.mem_cons_self _ _)
    have hrest := ih fun e he => hpre e (List.mem_cons_of_mem _ he)
    rcases hud with hu' | hb'
    · simp [Tauri.apiScan, hu', hrest]
    · by_cases hu' : strIncludes u' p = true
      · simp [Tauri.apiScan, hu', hhdr, hbody, hb', hrest]
      · simp only [Bool.not_eq_true] at hu'
        simp [Tauri.apiScan, hu', hrest]

/-! ## Claim C2: response-body extraction -/

/-- C2 (amended). For a well-formed rule `$\x7bapi:<p>:response:body:<fp>\x7d`
(path substring without `:`, non-empty field path), both evaluators scan the
captured exchanges in insertion order, and the winner is the first exchange
whose URL contains `<p>` AND whose stored response body is truthy (not
`null`, `false`, `0` or `""`): the result is the JSON-path traversal of that
body. Exchanges whose URL matches but whose body is a falsy JSON value are
skipped. When no exchange qualifies, the result is the empty string and no
exception is raised. -/
theorem C2_body_extraction (p fp : Str) (m : CapMap) (hp : ':' ∉ p) (hfp : fp ≠ []) :
    ((∀ e ∈ m, strIncludes e.1 p = false ∨ jsTruthyOpt e.2.responseBody = false) →
      Scripts.evaluateRule (mkApiRule p "response".data "body".data fp) m = [] ∧
      Tauri.evaluateRule (mkApiRule p "response".data "body".data fp) m = []) ∧
    (∀ pre u d post, m = pre ++ (u, d) :: post →
      (∀ e ∈ pre, strIncludes e.1 p = false ∨ jsTruthyOpt e.2.responseBody = false) →
      strIncludes u p = true → jsTruthyOpt d.responseBody = true →
      Scripts.evaluateRule (mkApiRule p "response".data "body".data fp) m =
        extractJsonPath (d.responseBody.getD Json.null) fp ∧
      Tauri.evaluateRule (mkApiRule p "response".data "body".data fp) m =
        extractJsonPath (d.responseBody.getD Json.null) fp) := by
  have hrt : ':' ∉ "response".data := by decide
  have het : ':' ∉ "body".data := by decide
  have hS := scripts_eval_mkApiRule p "response".data "body".data fp m hp hrt het
  have hT := tauri_eval_mkApiRule p "response".data "body".data fp m hp hrt het
  have hhdr : (("response".data == "request".data) && ("body".data == "headers".data)) = false :=
    by decide
  have hbody : (("response".data == "response".data) && ("body".data == "body".data)) = true :=
    by decide
  constructor
  · intro h
    exact ⟨hS.trans (scripts_apiScan_body_empty _ _ _ _ _ hhdr hbody h),
      hT.trans (tauri_apiScan_body_empty _ _ _ _ _ hhdr hbody h)⟩
  · intro pre u d post hm hpre hu hb
    subst hm
    exact ⟨hS.trans (scripts_apiScan_body_first _ _ _ _ _ _ _ _ hhdr hbody
        (isEmpty_false_of_ne_nil fp hfp) hpre hu hb),
      hT.trans (tauri_apiScan_body_first _ _ _ _ _ _ _ _ hhdr hbody hpre hu hb)⟩

/-- C2 witness: the spec's example. A captured exchange whose URL contains
`/x/y` with body `\x7b"a":\x7b"b":"v"\x7d\x7d` makes the rule
`$\x7bapi:/x/y:response:body:a:b\x7d` evaluate to `v` in both variants, and
with no matching capture both yield `''`. -/
theorem C2_body_extraction_witness :
    Scripts.evaluateRule (mkApiRule "/x/y".data "response".data "body".data "a:b".data)
      [("https://h/x/y?q=1".data,
        ⟨[], some (Json.obj [("a".data, Json.obj [("b".data, Json.str "v".data)])])⟩)] =
      "v".data ∧
    Tauri.evaluateRule (mkApiRule "/x/y".data "response".data "body".data "a:b".data) [] =
      [] := by
  constructor
  · have h := ((C2_body_extraction "/x/y".data "a:b".data
        [("https://h/x/y?q=1".data,
          ⟨[], some (Json.obj [("a".data, Json.obj [("b".data, Json.str "v".data)])])⟩)]
        (by decide) (by decide)).2
        [] "https://h/x/y?q=1".data
        ⟨[], some (Json.obj [("a".data, Json.obj [("b".data, Json.str "v".data)])])⟩
        [] rfl (by simp) (by decide) (by decide)).1
    exact h.trans (by decide)
  · exact ((C2_body_extraction "/x/y".data "a:b".data [] (by decide) (by decide)).1
      (by simp)).2

/-- C2 counterexample to the claim as stated: the first exchange whose URL
contains `p` has body `null`, whose traversal along `a:b` is `''`, yet
evaluation returns `v` taken from the second matching exchange — the first
URL match does not win when its body is falsy. -/
theorem C2_counterexample :
    strIncludes "http://x/p".data "p".data = true ∧
    extractJsonPath Json.null "a:b".data = [] ∧
    Scripts.evaluateRule "$\x7bapi:p:response:body:a:b\x7d".data
      [("http://x/p".data, ⟨[], some Json.null⟩),
       ("http://y/p".data,
        ⟨[], some (Json.obj [("a".data, Json.obj [("b".data, Json.str "v".data)])])⟩)] =
      "v".data ∧
    "v".data ≠ ([] : Str) := by
  decide

/-! ## Claim C3: request-header lookup -/

theorem scripts_apiScan_headers_first (p rt et fp u : Str) (d : CapturedData)
    (pre post : CapMap)
    (hhdr : (rt == "request".data && et == "headers".data) = true)
    (hfp : fp.isEmpty = false)
    (hpre : ∀ e ∈ pre, strIncludes e.1 p = false)
    (hu : strIncludes u p = true) :
    Scripts.apiScan p rt et fp (pre ++ (u, d) :: post) =
      Scripts.lookupHeaderCI d.requestHeaders fp := by
  induction pre with
  | nil => simp [Scripts.apiScan, hu, hhdr, hfp]
  | cons ud rest ih =>
    obtain ⟨u', d'⟩ := ud
    have hu' := hpre (u', d') (List.mem_cons_self _ _)
    have hrest := ih fun e he => hpre e (List.mem_cons_of_mem _ he)
    simp [Scripts.apiScan, hu', hrest]

theorem lookupHeaderCI_head (k v name : Str) (rest : List (Str × Str))
    (h : toLowerStr k = toLowerStr name) :
    Scripts.lookupHeaderCI ((k, v) :: rest) name = v := by
  simp [Scripts.lookupHeaderCI, h]

theorem lookupHeaderCI_empty (hs : List (Str × Str)) (name : Str)
    (h : ∀ kv ∈ hs, toLowerStr kv.1 ≠ toLowerStr name) :
    Scripts.lookupHeaderCI hs name = [] := by
  induction hs with
  | nil => simp [Scripts.lookupHeaderCI]
  | cons kv rest ih =>
    obtain ⟨k, v⟩ := kv
    have hk := h (k, v) (List.mem_cons_self _ _)
    have hrest := ih fun e he => h e (List.mem_cons_of_mem _ he)
    simp [Scripts.lookupHeaderCI, hk, hrest]

theorem tauri_apiScan_headers_empty (p rt et fp : Str) (m : CapMap)
    (hhdr : (rt == "request".data && et == "headers".data) = true)
    (h : ∀ e ∈ m, strIncludes e.1 p = true →
         objLookupStr e.2.requestHeaders fp = none ∨
         objLookupStr e.2.requestHeaders fp = some []) :
    Tauri.apiScan p rt et fp m = [] := by
  induction m with
  | nil => simp [Tauri.apiScan]
  | cons ud rest ih =>
    obtain ⟨u, d⟩ := ud
    have hrest := ih fun e he => h e (List.mem_cons_of_mem _ he)
    by_cases hu : strIncludes u p = true
    · have hd := h (u, d) (List.mem_cons_self _ _) hu
      rcases hd with hd | hd
      · simp [Tauri.apiScan, hu, hhdr, hd, hrest]
      · simp [Tauri.apiScan, hu, hhdr, hd, List.isEmpty, hrest]
    · simp only [Bool.not_eq_true] at hu
      simp [Tauri.apiScan, hu, hrest]

theorem tauri_apiScan_headers_first (p rt et fp u v : Str) (d : CapturedData)
    (pre post : CapMap)
    (hhdr : (rt == "request".data && et == "headers".data) = true)
    (hpre : ∀ e ∈ pre, strIncludes e.1 p = false ∨
        objLookupStr e.2.requestHeaders fp = none ∨
        objLookupStr e.2.requestHeaders fp = some [])
    (hu : strIncludes u p = true)
    (hv : objLookupStr d.requestHeaders fp = some v) (hvne : v ≠ []) :
    Tauri.apiScan p rt et fp (pre ++ (u, d) :: post) = v := by
  induction pre with
  | nil => simp [Tauri.apiScan, hu, hhdr, hv, isEmpty_false_of_ne_nil v hvne]
  | cons ud rest ih =>
    obtain ⟨u', d'⟩ := ud
    have hud := hpre (u', d') (List.mem_cons_self _ _)
    have hrest := ih fun e he => hpre e (List.mem_cons_of_mem _ he)
    rcases hud with hu' | hl | hl
    · simp [Tauri.apiScan, hu', hrest]
    · by_cases hu' : strIncludes u' p = true
      · simp [Tauri.apiScan, hu', hhdr, hl, hrest]
      · simp only [Bool.not_eq_true] at hu'
        simp [Tauri.apiScan, hu', hrest]
    · by_cases hu' : strIncludes u' p = true
      · simp [Tauri.apiScan, hu', hhdr, hl, List.isEmpty, hrest]
      · simp only [Bool.not_eq_true] at hu'
        simp [Tauri.apiScan, hu', hrest]

/-- C3 (amended). For a rule `$\x7bapi:<p>:request:headers:<name>\x7d` (path
substring without `:`, non-empty header name): in the Scripts variant the
lookup happens in the first exchange whose URL contains `<p>`, is
case-insensitive on the header name (the first header whose lowercased name
matches wins), and yields `''` when that exchange has no such header. In the
Tauri variant the lookup is an exact, case-sensitive property read: an
exchange whose headers lack a non-empty value under the exact name is
skipped in favour of later matching exchanges, and the result is `''` when
no matching exchange has one. -/
theorem C3_header_lookup (p name : Str) (hp : ':' ∉ p) (hn : name ≠ []) :
    (∀ pre u d post,
       (∀ e ∈ pre, strIncludes e.1 p = false) → strIncludes u p = true →
       Scripts.evaluateRule (mkApiRule p "request".data "headers".data name)
           (pre ++ (u, d) :: post) =
         Scripts.lookupHeaderCI d.requestHeaders name) ∧
    (∀ k v rest, toLowerStr k = toLowerStr name →
       Scripts.lookupHeaderCI ((k, v) :: rest) name = v) ∧
    (∀ hs, (∀ kv ∈ hs, toLowerStr kv.1 ≠ toLowerStr name) →
       Scripts.lookupHeaderCI hs name = []) ∧
    (∀ m, (∀ e ∈ m, strIncludes e.1 p = true →
            objLookupStr e.2.requestHeaders name = none ∨
            objLookupStr e.2.requestHeaders name = some []) →
       Tauri.evaluateRule (mkApiRule p "request".data "headers".data name) m = []) ∧
    (∀ pre u d post v,
       (∀ e ∈ pre, strIncludes e.1 p = false ∨
          objLookupStr e.2.requestHeaders name = none ∨
          objLookupStr e.2.requestHeaders name = some []) →
       strIncludes u p = true →
       objLookupStr d.requestHeaders name = some v → v ≠ [] →
       Tauri.evaluateRule (mkApiRule p "request".data "headers".data name)
           (pre ++ (u, d) :: post) = v) := by
  have hrt : ':' ∉ "request".data := by decide
  have het : ':' ∉ "headers".data := by decide
  have hhdr : (("request".data == "request".data) && ("headers".data == "headers".data)) = true :=
    by decide
  refine ⟨?_, ?_, ?_, ?_, ?_⟩
  · intro pre u d post hpre hu
    rw [scripts_eval_mkApiRule p "request".data "headers".data name _ hp hrt het]
    exact scripts_apiScan_headers_first _ _ _ _ _ _ _ _ hhdr
      (isEmpty_false_of_ne_nil name hn) hpre hu
  · intro k v rest h
    exact lookupHeaderCI_head k v name rest h
  · intro hs h
    exact lookupHeaderCI_empty hs name h
  · intro m h
    rw [tauri_eval_mkApiRule p "request".data "headers".data name m hp hrt het]
    exact tauri_apiScan_headers_empty _ _ _ _ _ hhdr h
  · intro pre u d post v hpre hu hv hvne
    rw [tauri_eval_mkApiRule p "request".data "headers".data name _ hp hrt het]
    exact tauri_apiScan_headers_first _ _ _ _ _ _ _ _ _ hhdr hpre hu hv hvne

/-- C3 witness: applying the theorem, a rule naming `cookie` retrieves a
stored header named `Cookie` in the Scripts variant; with no matching header
anywhere the Scripts lookup yields `''`; and the Tauri evaluator skips a
URL-matching exchange that lacks an exact `cookie` header, returning the
value from the later matching exchange that has one. -/
theorem C3_header_lookup_witness :
    Scripts.evaluateRule (mkApiRule "/p".data "request".data "headers".data "cookie".data)
      [("https://h/p".data, ⟨[("Cookie".data, "tok".data)], none⟩)] = "tok".data ∧
    Scripts.lookupHeaderCI [("x-sign".data, "z".data)] "cookie".data = [] ∧
    Tauri.evaluateRule (mkApiRule "/p".data "request".data "headers".data "cookie".data)
      [("https://a/p".data, ⟨[("x-token".data, "z".data)], none⟩),
       ("https://b/p".data, ⟨[("cookie".data, "tok2".data)], none⟩)] = "tok2".data := by
  refine ⟨?_, ?_, ?_⟩
  · have h1 := (C3_header_lookup "/p".data "cookie".data (by decide) (by decide)).1
      [] "https://h/p".data ⟨[("Cookie".data, "tok".data)], none⟩ [] (by simp) (by decide)
    have h2 := (C3_header_lookup "/p".data "cookie".data (by decide) (by decide)).2.1
      "Cookie".data "tok".data [] (by decide)
    exact h1.trans h2
  · exact (C3_header_lookup "/p".data "cookie".data (by decide) (by decide)).2.2.1
      [("x-sign".data, "z".data)] (by decide)
  · exact (C3_header_lookup "/p".data "cookie".data (by decide) (by decide)).2.2.2.2
      [("https://a/p".data, ⟨[("x-token".data, "z".data)], none⟩)]
      "https://b/p".data ⟨[("cookie".data, "tok2".data)], none⟩ [] "tok2".data
      (by
        intro e he
        rcases List.mem_singleton.mp he with rfl
        exact Or.inr (Or.inl (by decide)))
      (by decide) (by decide) (by decide)

/-- C3 counterexample to the claim as stated: the same capture, same rule
naming `cookie` with a stored header named `Cookie`: the Tauri evaluator's
exact property read misses it and yields `''` where the claimed
case-insensitive lookup would yield `tok` (as the Scripts variant does). -/
theorem C3_counterexample :
    Tauri.evaluateRule "$\x7bapi:/p:request:headers:cookie\x7d".data
      [("https://h/p".data, ⟨[("Cookie".data, "tok".data)], none⟩)] = [] ∧
    Scripts.evaluateRule "$\x7bapi:/p:request:headers:cookie\x7d".data
      [("https://h/p".data, ⟨[("Cookie".data, "tok".data)], none⟩)] = "tok".data ∧
    "tok".data ≠ ([] : Str) := by
  decide

/-! ## Map and fold lemmas for the capture handlers -/

theorem objLookup_map_set (m : List (Str × α)) (k : Str) (v : α) (u : Str) (h : u ≠ k) :
    objLookup (m.map fun kv => if kv.1 == k then (k, v) else kv) u = objLookup m u := by
  induction m with
  | nil => rfl
  | cons kv rest ih =>
    obtain ⟨a, b⟩ := kv
    rw [List.map_cons]
    by_cases ha : (a == k) = true
    · rw [if_pos ha]
      have ha2 : a = k := eq_of_beq ha
      have hku : ¬ k = u := fun hh => h hh.symm
      have hau : ¬ a = u := fun hh => h (hh ▸ ha2)
      show (if k = u then some v
          else objLookup (rest.map fun kv => if kv.1 == k then (k, v) else kv) u) =
        (if a = u then some b else objLookup rest u)
      rw [if_neg hku, if_neg hau]
      exact ih
    · rw [if_neg ha]
      show (if a = u then some b
          else objLookup (rest.map fun kv => if kv.1 == k then (k, v) else kv) u) =
        (if a = u then some b else objLookup rest u)
      by_cases hau : a = u
      · rw [if_pos hau, if_pos hau]
      · rw [if_neg hau, if_neg hau]
        exact ih

theorem objLookup_append_single (m : List (Str × α)) (k : Str) (v : α) (u : Str) (h : u ≠ k) :
    objLookup (m ++ [(k, v)]) u = objLookup m u := by
  induction m with
  | nil =>
    have hku : ¬ k = u := fun hh => h hh.symm
    show (if k = u then some v else objLookup ([] : List (Str × α)) u) =
      objLookup ([] : List (Str × α)) u
    rw [if_neg hku]
  | cons kv rest ih =>
    obtain ⟨a, b⟩ := kv
    show (if a = u then some b else objLookup (rest ++ [(k, v)]) u) =
      (if a = u then some b else objLookup rest u)
    by_cases hau : a = u
    · rw [if_pos hau, if_pos hau]
    · rw [if_neg hau, if_neg hau]
      exact ih

theorem objLookup_objSet_self (m : List (Str × α)) (k : Str) (v : α) :
    objLookup (objSet m k v) k = some v := by
  induction m with
  | nil =>
    show (if k = k then some v else objLookup ([] : List (Str × α)) k) = some v
    rw [if_pos rfl]
  | cons kv rest ih =>
    obtain ⟨a, b⟩ := kv
    by_cases ha : (a == k) = true
    · have hany : (((a, b) :: rest).any fun kv => kv.1 == k) = true := by
        simp [List.any_cons, ha]
      unfold objSet
      rw [if_pos hany, List.map_cons, if_pos ha]
      show (if k = k then some v
          else objLookup (rest.map fun kv => if kv.1 == k then (k, v) else kv) k) = some v
      rw [if_pos rfl]
    · have ha2 : ¬ a = k := fun hh => ha (by simp [hh])
      have haf : (a == k) = false := by
        simp only [Bool.not_eq_true] at ha
        exact ha
      by_cases hr : (rest.any fun kv => kv.1 == k) = true
      · have hany : (((a, b) :: rest).any fun kv => kv.1 == k) = true := by
          simp [List.any_cons, hr]
        unfold objSet
        rw [if_pos hany, List.map_cons, if_neg ha]
        show (if a = k then some b
            else objLookup (rest.map fun kv => if kv.1 == k then (k, v) else kv) k) = some v
        rw [if_neg ha2]
        have hset : objSet rest k v = rest.map fun kv => if kv.1 == k then (k, v) else kv := by
          unfold objSet
          rw [if_pos hr]
        rw [← hset]
        exact ih
      · have hrf : (rest.any fun kv => kv.1 == k) = false := by
          simp only [Bool.not_eq_true] at hr
          exact hr
        have hanyn : ¬ ((((a, b) :: rest).any fun kv => kv.1 == k) = true) := by
          simp [List.any_cons, haf, hrf]
        unfold objSet
        rw [if_neg hanyn]
        show (if a = k then some b else objLookup (rest ++ [(k, v)]) k) = some v
        rw [if_neg ha2]
        have hset : objSet rest k v = rest ++ [(k, v)] := by
          unfold objSet
          rw [if_neg (by simp [hrf])]
        rw [← hset]
        exact ih

theorem objLookup_objSet_ne (m : List (Str × α)) (k : Str) (v : α) (u : Str) (h : u ≠ k) :
    objLookup (objSet m k v) u = objLookup m u := by
  unfold objSet
  split
  · exact objLookup_map_set m k v u h
  · exact objLookup_append_single m k v u h

theorem objLookup_objSet_isSome (m : List (Str × α)) (k : Str) (v : α) (u : Str) :
    (objLookup (objSet m k v) u ≠ none) ↔ (u = k ∨ objLookup m u ≠ none) := by
  by_cases hu : u = k
  · subst hu
    simp [objLookup_objSet_self]
  · simp [objLookup_objSet_ne m k v u hu, hu]

theorem scripts_capture_step (apiPaths : List Str) (m : CapMap) (ev : RespEvent) :
    Scripts.onResponseCapture apiPaths m ev =
      if Scripts.capturesEv apiPaths ev then objSet m ev.url ⟨ev.reqHeaders, ev.parsedBody⟩
      else m := by
  cases hb : ev.parsedBody with
  | none => simp [Scripts.onResponseCapture, Scripts.capturesEv, hb]
  | some body =>
    by_cases hurl : (apiPaths.any fun p => strIncludes ev.url p) = true
    · simp [Scripts.onResponseCapture, Scripts.capturesEv, hb, hurl]
    · simp only [Bool.not_eq_true] at hurl
      simp [Scripts.onResponseCapture, Scripts.capturesEv, hb, hurl]

theorem tauri_capture_step (m : CapMap) (ev : RespEvent) :
    Tauri.onResponseCapture m ev =
      if Tauri.capturesEv ev then objSet m ev.url ⟨ev.reqHeaders, ev.parsedBody⟩
      else m := by
  cases hb : ev.parsedBody with
  | none =>
    by_cases hst : (200 ≤ ev.status && ev.status < 300) = true
    · by_cases hct : strIncludes ev.contentType "application/json".data = true
      · simp [Tauri.onResponseCapture, Tauri.capturesEv, hb, hst, hct]
      · simp only [Bool.not_eq_true] at hct
        simp [Tauri.onResponseCapture, Tauri.capturesEv, hb, hst, hct]
    · simp only [Bool.not_eq_true] at hst
      simp [Tauri.onResponseCapture, Tauri.capturesEv, hb, hst]
  | some body =>
    by_cases hst : (200 ≤ ev.status && ev.status < 300) = true
    · by_cases hct : strIncludes ev.contentType "application/json".data = true
      · simp [Tauri.onResponseCapture, Tauri.capturesEv, hb, hst, hct]
      · simp only [Bool.not_eq_true] at hct
        simp [Tauri.onResponseCapture, Tauri.capturesEv, hb, hst, hct]
    · simp only [Bool.not_eq_true] at hst
      simp [Tauri.onResponseCapture, Tauri.capturesEv, hb, hst]

theorem scripts_foldl_lookup (apiPaths : List Str) (evs : List RespEvent) (m : CapMap)
    (u : Str) :
    objLookup (List.foldl (Scripts.onResponseCapture apiPaths) m evs) u ≠ none ↔
      objLookup m u ≠ none ∨
        ∃ ev ∈ evs, ev.url = u ∧ Scripts.capturesEv apiPaths ev = true := by
  induction evs generalizing m with
  | nil => simp
  | cons ev rest ih =>
    rw [List.foldl_cons, ih, scripts_capture_step]
    by_cases hc : Scripts.capturesEv apiPaths ev = true
    · rw [if_pos hc, objLookup_objSet_isSome]
      constructor
      · rintro ((h | h) | h)
        · exact Or.inr ⟨ev, List.mem_cons_self _ _, h.symm, hc⟩
        · exact Or.inl h
        · obtain ⟨e, he, hu, hcap⟩ := h
          exact Or.inr ⟨e, List.mem_cons_of_mem _ he, hu, hcap⟩
      · rintro (h | ⟨e, he, hu, hcap⟩)
        · exact Or.inl (Or.inr h)
        · rcases List.mem_cons.mp he with he | he
          · subst he
            exact Or.inl (Or.inl hu.symm)
          · exact Or.inr ⟨e, he, hu, hcap⟩
    · rw [if_neg hc]
      constructor
      · rintro (h | h)
        · exact Or.inl h
        · obtain ⟨e, he, hu, hcap⟩ := h
          exact Or.inr ⟨e, List.mem_cons_of_mem _ he, hu, hcap⟩
      · rintro (h | ⟨e, he, hu, hcap⟩)
        · exact Or.inl h
        · rcases List.mem_cons.mp he with he | he
          · subst he
            exact absurd hcap hc
          · exact Or.inr ⟨e, he, hu, hcap⟩

theorem tauri_foldl_lookup (evs : List RespEvent) (m : CapMap) (u : Str) :
    objLookup (List.foldl Tauri.onResponseCapture m evs) u ≠ none ↔
      objLookup m u ≠ none ∨ ∃ ev ∈ evs, ev.url = u ∧ Tauri.capturesEv ev = true := by
  induction evs generalizing m with
  | nil => simp
  | cons ev rest ih =>
    rw [List.foldl_cons, ih, tauri_capture_step]
    by_cases hc : Tauri.capturesEv ev = true
    · rw [if_pos hc, objLookup_objSet_isSome]
      constructor
      · rintro ((h | h) | h)
        · exact Or.inr ⟨ev, List.mem_cons_self _ _, h.symm, hc⟩
        · exact Or.inl h
        · obtain ⟨e, he, hu, hcap⟩ := h
          exact Or.inr ⟨e, List.mem_cons_of_mem _ he, hu, hcap⟩
      · rintro (h | ⟨e, he, hu, hcap⟩)
        · exact Or.inl (Or.inr h)
        · rcases List.mem_cons.mp he with he | he
          · subst he
            exact Or.inl (Or.inl hu.symm)
          · exact Or.inr ⟨e, he, hu, hcap⟩
    · rw [if_neg hc]
      constructor
      · rintro (h | h)
        · exact Or.inl h
        · obtain ⟨e, he, hu, hcap⟩ := h
          exact Or.inr ⟨e, List.mem_cons_of_mem _ he, hu, hcap⟩
      · rintro (h | ⟨e, he, hu, hcap⟩)
        · exact Or.inl h
        · rcases List.mem_cons.mp he with he | he
          · subst he
            exact absurd hcap hc
          · exact Or.inr ⟨e, he, hu, hcap⟩

/-! ## Claim C4: the capture-map invariant -/

/-- C4 (amended). Folding the capture handlers over the observed responses
from an empty map: in the Scripts variant the map holds an entry for URL `u`
iff some observed response at `u` had a URL containing a watched API-path
substring and a body that parsed as JSON — the status code and content type
are not checked; in the Tauri variant, iff some observed response at `u` had
a 2xx status, a JSON content type and a parsing body — the URL is not
filtered against the watched substrings. In both, JSON-parse failures are
dropped without aborting, and appending a further qualifying response at `u`
overwrites the entry with that response's data (last-write-wins per URL). -/
theorem C4_capture_invariant (apiPaths : List Str) (evs : List RespEvent) (u : Str) :
    (objLookup (List.foldl (Scripts.onResponseCapture apiPaths) [] evs) u ≠ none ↔
      ∃ ev ∈ evs, ev.url = u ∧ Scripts.capturesEv apiPaths ev = true) ∧
    (objLookup (List.foldl Tauri.onResponseCapture [] evs) u ≠ none ↔
      ∃ ev ∈ evs, ev.url = u ∧ Tauri.capturesEv ev = true) ∧
    (∀ ev, ev.url = u → Scripts.capturesEv apiPaths ev = true →
      objLookup (List.foldl (Scripts.onResponseCapture apiPaths) [] (evs ++ [ev])) u =
        some ⟨ev.reqHeaders, ev.parsedBody⟩) ∧
    (∀ ev, ev.url = u → Tauri.capturesEv ev = true →
      objLookup (List.foldl Tauri.onResponseCapture [] (evs ++ [ev])) u =
        some ⟨ev.reqHeaders, ev.parsedBody⟩) := by
  refine ⟨?_, ?_, ?_, ?_⟩
  · rw [scripts_foldl_lookup]
    simp [objLookup]
  · rw [tauri_foldl_lookup]
    simp [objLookup]
  · intro ev hu hc
    rw [List.foldl_append, List.foldl_cons, List.foldl_nil, scripts_capture_step, if_pos hc,
      ← hu, objLookup_objSet_self]
  · intro ev hu hc
    rw [List.foldl_append, List.foldl_cons, List.foldl_nil, tauri_capture_step, if_pos hc,
      ← hu, objLookup_objSet_self]

/-- C4 witness: the theorem applied to one qualifying event per variant, and
to the last-write conjunct with an overwriting second capture at the same
URL. -/
theorem C4_capture_invariant_witness :
    objLookup
      (List.foldl (Scripts.onResponseCapture ["/api/".data]) []
        [⟨"https://h/api/user".data, 200, "application/json".data, [], some (Json.obj [])⟩,
         ⟨"https://h/api/user".data, 200, "application/json".data,
          [("a".data, "b".data)], some Json.null⟩])
      "https://h/api/user".data =
      some ⟨[("a".data, "b".data)], some Json.null⟩ ∧
    objLookup (List.foldl Tauri.onResponseCapture []
        [⟨"https://h/other".data, 204, "application/json; charset=utf-8".data, [],
          some (Json.num 1)⟩])
      "https://h/other".data ≠ none := by
  constructor
  · exact (C4_capture_invariant ["/api/".data]
      [⟨"https://h/api/user".data, 200, "application/json".data, [], some (Json.obj [])⟩]
      "https://h/api/user".data).2.2.1
      ⟨"https://h/api/user".data, 200, "application/json".data,
        [("a".data, "b".data)], some Json.null⟩ rfl (by decide)
  · exact (C4_capture_invariant [] _ "https://h/other".data).2.1.mpr
      ⟨⟨"https://h/other".data, 204, "application/json; charset=utf-8".data, [],
        some (Json.num 1)⟩, List.mem_cons_self _ _, rfl, by decide⟩

/-- A response that the Scripts handler captures although its status is 404
and its content type is not JSON. -/
def cexScriptsEvent : RespEvent :=
  ⟨"https://h/api/x".data, 404, "text/html".data, [], some (Json.obj [])⟩

/-- A response that the Tauri handler captures although its URL contains no
watched API-path substring. -/
def cexTauriEvent : RespEvent :=
  ⟨"https://h/other".data, 200, "application/json".data, [], some (Json.obj [])⟩

/-- C4 counterexample to the claim as stated: the Scripts handler stores a
watched-URL response with status 404 and content type `text/html` (no status
or content-type check), and the Tauri handler stores a 2xx JSON response
whose URL matches no watched substring (no URL filter) — in both cases the
claimed four-condition conjunction fails for an entry that exists. -/
theorem C4_counterexample :
    (objLookup (List.foldl (Scripts.onResponseCapture ["/api/".data]) [] [cexScriptsEvent])
      "https://h/api/x".data).isSome = true ∧
    cexScriptsEvent.status = 404 ∧
    strIncludes cexScriptsEvent.contentType "application/json".data = false ∧
    (objLookup (List.foldl Tauri.onResponseCapture [] [cexTauriEvent])
      "https://h/other".data).isSome = true ∧
    (["/api/".data].any fun p => strIncludes cexTauriEvent.url p) = false := by
  decide

/-! ## Claim C8: the redirect clears the capture map -/

/-- C8. In the Tauri wait loop, when login has succeeded, a redirect URL is
configured (non-empty) and the current URL does not contain the redirect
URL's query-less prefix, the loop body deletes every key of
`capturedApiData` before navigating; so for any URL `u` that is not captured
again by the responses observed after the redirect, the map the result
builder reads has no entry at `u` — in particular every exchange captured
before the redirect is gone, whatever the map held. -/
theorem C8_redirect_clears (redirectUrl currentUrl u : Str) (m : CapMap)
    (post : List RespEvent)
    (hguard : Tauri.redirectGuard true redirectUrl currentUrl = true)
    (hpost : ∀ ev ∈ post, ev.url ≠ u ∨ Tauri.capturesEv ev = false) :
    Tauri.redirectStep true redirectUrl currentUrl m = [] ∧
    objLookup
      (List.foldl Tauri.onResponseCapture (Tauri.redirectStep true redirectUrl currentUrl m)
        post) u = none := by
  have hstep : Tauri.redirectStep true redirectUrl currentUrl m = [] := by
    unfold Tauri.redirectStep
    rw [if_pos hguard]
  refine ⟨hstep, ?_⟩
  rw [hstep]
  by_contra hne
  rcases (tauri_foldl_lookup post [] u).mp hne with hm | ⟨ev, hev, hurl, hcap⟩
  · exact hm rfl
  · rcases hpost ev hev with hu | hc
    · exact hu hurl
    · rw [hcap] at hc
      exact Bool.noConfusion hc

/-- C8 witness: the theorem applied to a concrete session — login succeeded,
redirect to `https://site/home?tab=1` configured, current URL still
`https://site/login`, one pre-redirect capture, one non-matching
post-redirect response. -/
theorem C8_redirect_clears_witness :
    Tauri.redirectStep true "https://site/home?tab=1".data "https://site/login".data
      [("https://site/api/user".data, ⟨[], some (Json.obj [])⟩)] = [] ∧
    objLookup
      (List.foldl Tauri.onResponseCapture
        (Tauri.redirectStep true "https://site/home?tab=1".data "https://site/login".data
          [("https://site/api/user".data, ⟨[], some (Json.obj [])⟩)])
        [⟨"https://site/home".data, 200, "text/html".data, [], none⟩])
      "https://site/api/user".data = none := by
  exact C8_redirect_clears "https://site/home?tab=1".data "https://site/login".data
    "https://site/api/user".data
    [("https://site/api/user".data, ⟨[], some (Json.obj [])⟩)]
    [⟨"https://site/home".data, 200, "text/html".data, [], none⟩]
    (by decide)
    (by
      intro ev hev
      rcases List.mem_singleton.mp hev with rfl
      exact Or.inr (by decide))

/-! ## Claim C7: the result mirrors the configured shape -/

theorem tauri_build_mem_aux (apiData : CapMap) (rules : List (Str × Str))
    (acc : List (Str × Str)) (kv : Str × Str) :
    kv ∈ rules.foldl (Tauri.buildStep apiData) acc ↔
      kv ∈ acc ∨ ∃ kr ∈ rules, kv = (kr.1, Tauri.evaluateRule kr.2 apiData) ∧
        Tauri.evaluateRule kr.2 apiData ≠ [] := by
  induction rules generalizing acc with
  | nil => simp
  | cons r rest ih =>
    rw [List.foldl_cons, ih]
    by_cases hv : (Tauri.evaluateRule r.2 apiData).isEmpty = true
    · have hvnil : Tauri.evaluateRule r.2 apiData = [] := by
        cases hvv : Tauri.evaluateRule r.2 apiData with
        | nil => rfl
        | cons c cs =>
          rw [hvv] at hv
          exact absurd hv (by simp [List.isEmpty])
      have hstep : Tauri.buildStep apiData acc r = acc := by
        unfold Tauri.buildStep
        rw [hv]
        rfl
      rw [hstep]
      constructor
      · rintro (h | ⟨kr, hkr, heq, hne⟩)
        · exact Or.inl h
        · exact Or.inr ⟨kr, List.mem_cons_of_mem _ hkr, heq, hne⟩
      · rintro (h | ⟨kr, hkr, heq, hne⟩)
        · exact Or.inl h
        · rcases List.mem_cons.mp hkr with rfl | hkr2
          · exact absurd hvnil hne
          · exact Or.inr ⟨kr, hkr2, heq, hne⟩
    · have hvne : Tauri.evaluateRule r.2 apiData ≠ [] := by
        intro hh
        rw [hh] at hv
        exact hv rfl
      have hvf : (Tauri.evaluateRule r.2 apiData).isEmpty = false := by
        cases hvv : Tauri.evaluateRule r.2 apiData with
        | nil => exact absurd hvv hvne
        | cons c cs => simp [List.isEmpty]
      have hstep : Tauri.buildStep apiData acc r =
          acc ++ [(r.1, Tauri.evaluateRule r.2 apiData)] := by
        unfold Tauri.buildStep
        rw [hvf]
        rfl
      rw [hstep]
      constructor
      · rintro (h | ⟨kr, hkr, heq, hne⟩)
        · rcases List.mem_append.mp h with h | h
          · exact Or.inl h
          · exact Or.inr ⟨r, List.mem_cons_self _ _, List.mem_singleton.mp h, hvne⟩
        · exact Or.inr ⟨kr, List.mem_cons_of_mem _ hkr, heq, hne⟩
      · rintro (h | ⟨kr, hkr, heq, hne⟩)
        · exact Or.inl (List.mem_append_left _ h)
        · rcases List.mem_cons.mp hkr with rfl | hkr2
          · exact Or.inl (List.mem_append_right _ (by simp [heq]))
          · exact Or.inr ⟨kr, hkr2, heq, hne⟩

/-- C7 (amended). The Scripts result builder mirrors the configured shape
exactly: the output map has the same keys in the same order (identical
casing), each carrying its rule's evaluated value (`$\x7bapi:...\x7d` rules
evaluated, anything else passed through verbatim) — a key whose rule
evaluates to the empty string still appears, holding `''`. The Tauri result
builder does not: its output contains exactly the configured keys whose
rules evaluate to a non-empty value, so empty fields are omitted rather than
kept as empty strings. -/
theorem C7_result_shape (rules : List (Str × Str)) (apiData : CapMap) :
    ((Scripts.buildResultMap rules apiData).map Prod.fst = rules.map Prod.fst) ∧
    (∀ k r, (k, r) ∈ rules →
      (k, if strStartsWith r apiPrefix then Scripts.evaluateRule r apiData else r) ∈
        Scripts.buildResultMap rules apiData) ∧
    (∀ kv ∈ Tauri.buildResultMap rules apiData,
      ∃ kr ∈ rules, kv = (kr.1, Tauri.evaluateRule kr.2 apiData) ∧
        Tauri.evaluateRule kr.2 apiData ≠ []) ∧
    (∀ k r, (k, r) ∈ rules → Tauri.evaluateRule r apiData ≠ [] →
      (k, Tauri.evaluateRule r apiData) ∈ Tauri.buildResultMap rules apiData) := by
  refine ⟨?_, ?_, ?_, ?_⟩
  · induction rules with
    | nil => rfl
    | cons r rest ih =>
      simp only [Scripts.buildResultMap, List.map_cons] at ih ⊢
      rw [ih]
  · intro k r h
    exact List.mem_map_of_mem _ h
  · intro kv h
    rcases (tauri_build_mem_aux apiData rules [] kv).mp h with h | h
    · exact absurd h (List.not_mem_nil kv)
    · exact h
  · intro k r h hne
    exact (tauri_build_mem_aux apiData rules [] (k, Tauri.evaluateRule r apiData)).mpr
      (Or.inr ⟨(k, r), h, rfl, hne⟩)

/-- C7 witness: the theorem applied to a one-key configuration per variant. -/
theorem C7_result_shape_witness :
    (Scripts.buildResultMap [("nickname".data, "bob".data)] []).map Prod.fst =
      [("nickname".data, "bob".data)].map Prod.fst ∧
    ("nickname".data, "bob".data) ∈ Scripts.buildResultMap [("nickname".data, "bob".data)] [] ∧
    ("n".data, "alice".data) ∈ Tauri.buildResultMap [("n".data, "alice".data)] [] := by
  refine ⟨(C7_result_shape [("nickname".data, "bob".data)] []).1, ?_, ?_⟩
  · have h := (C7_result_shape [("nickname".data, "bob".data)] []).2.1 "nickname".data
      "bob".data (List.mem_singleton.mpr rfl)
    have hval : (if strStartsWith "bob".data apiPrefix
        then Scripts.evaluateRule "bob".data [] else "bob".data) = "bob".data := by decide
    rw [hval] at h
    exact h
  · have h := (C7_result_shape [("n".data, "alice".data)] []).2.2.2 "n".data "alice".data
      (List.mem_singleton.mpr rfl) (by decide)
    have hval : Tauri.evaluateRule "alice".data [] = "alice".data := by decide
    rw [hval] at h
    exact h

/-- C7 counterexample to the claim as stated: a configured `user_info` key
`x` whose rule evaluates to the empty string (no capture matches) is absent
from the Tauri output map instead of appearing as an empty-string field. -/
theorem C7_counterexample :
    Tauri.buildResultMap [("x".data, "$\x7bapi:/p:response:body:a\x7d".data)] [] = [] ∧
    [("x".data, "$\x7bapi:/p:response:body:a\x7d".data)].map Prod.fst = ["x".data] := by
  decide

/-! ## Claim C9: exit behavior and bracketed output -/

/-- C9 (amended). Scripts variant: a missing platform id, a set-but-
unparseable `AMM_CONFIG`, a missing config file or an unparseable config
file all exit with code 1 before launching a browser and before writing any
bracketed block; with a loaded config, every run — session success or
session exception — writes exactly one bracketed result and exits 0. Tauri
variant: a missing or unparseable `AMM_CONFIG` is caught like any other
exception, so the run writes exactly one bracketed `step: error` block and
exits 0 (the browser is still never launched in that case); with a parsed
config, every run writes exactly one bracketed block and exits 0. -/
theorem C9_exit_behavior :
    (∀ src o, Scripts.runMain false src o = ⟨[], 1, false⟩) ∧
    (∀ o, Scripts.runMain true (.envVar none) o = ⟨[], 1, false⟩) ∧
    (∀ c o, Scripts.runMain true (.file false c) o = ⟨[], 1, false⟩) ∧
    (∀ o, Scripts.runMain true (.file true none) o = ⟨[], 1, false⟩) ∧
    (∀ o, (Scripts.runMain true (.envVar (some ())) o).brackets.length = 1 ∧
      (Scripts.runMain true (.envVar (some ())) o).exitCode = 0 ∧
      (Scripts.runMain true (.envVar (some ())) o).browserLaunched = true) ∧
    (∀ o, (Scripts.runMain true (.file true (some ())) o).brackets.length = 1 ∧
      (Scripts.runMain true (.file true (some ())) o).exitCode = 0 ∧
      (Scripts.runMain true (.file true (some ())) o).browserLaunched = true) ∧
    (∀ o, Tauri.runMain none o = ⟨[.errorTag], 0, false⟩) ∧
    (∀ o, Tauri.runMain (some none) o = ⟨[.errorTag], 0, false⟩) ∧
    (∀ o, (Tauri.runMain (some (some ())) o).brackets.length = 1 ∧
      (Tauri.runMain (some (some ())) o).exitCode = 0 ∧
      (Tauri.runMain (some (some ())) o).browserLaunched = true) := by
  refine ⟨?_, ?_, ?_, ?_, ?_, ?_, ?_, ?_, ?_⟩
  · intro src o
    cases src <;> rfl
  · intro o
    cases o <;> rfl
  · intro c o
    cases o <;> rfl
  · intro o
    cases o <;> rfl
  · intro o
    cases o <;> exact ⟨rfl, rfl, rfl⟩
  · intro o
    cases o <;> exact ⟨rfl, rfl, rfl⟩
  · intro o
    cases o <;> rfl
  · intro o
    cases o <;> rfl
  · intro o
    cases o <;> exact ⟨rfl, rfl, rfl⟩

/-- C9 counterexample to the claim as stated: with `AMM_CONFIG` missing, the
Tauri variant does not exit non-zero without bracketed output — it emits one
bracketed `step: error` block and exits 0. -/
theorem C9_counterexample :
    (Tauri.runMain none SessionOutcome.ok).exitCode = 0 ∧
    (Tauri.runMain none SessionOutcome.ok).brackets.length = 1 := by
  decide
